import Mathlib

/-
Shallow embedding of the patent-semantic-search repository
(src/app.py, src/services/data_preprocessor.py, src/services/search_service.py,
src/services/summarization_service.py).

Python strings are embedded as `List Char`.  External collaborators that are
not part of the repository's source (the BeautifulSoup `get_text` extractor,
the sentence-transformer embedding model, the chromadb persistent collection,
and the Groq generative provider) enter the model as explicit oracle
parameters; where the repository's observable behavior depends on the
collaborator's contract, the contract is modelled from the spec and marked as
such in the corresponding doc comment.
-/

/-- Python character class for a whitespace character (the ASCII portion of
the regex class used by `re.sub` and by `str.strip`). -/
def pws (c : Char) : Bool :=
  c = ' ' || c = '\t' || c = '\n' || c = '\r' || c = '\x0b' || c = '\x0c'

/-- Python strings embedded as lists of characters. -/
abbrev Str := List Char

/-- Python `str.strip()`: remove leading and trailing whitespace. -/
def pyStrip (l : Str) : Str :=
  ((l.dropWhile pws).reverse.dropWhile pws).reverse

/-- Python `re.sub(r'\s+', ' ', s)`: collapse every maximal whitespace run
to a single space character. -/
def collapseWs : Str → Str
  | [] => []
  | [c] => if pws c then [' '] else [c]
  | c₁ :: c₂ :: rest =>
    if pws c₁ && pws c₂ then collapseWs (c₂ :: rest)
    else (if pws c₁ then ' ' else c₁) :: collapseWs (c₂ :: rest)

/-- Python `sep.join(xs)` for a list of strings. -/
def joinSep (sep : Str) : List Str → Str
  | [] => []
  | [x] => x
  | x :: y :: rest => x ++ sep ++ joinSep sep (y :: rest)

/-- Python `text.split('. ')`: split on non-overlapping occurrences of the
two-character delimiter, scanning left to right, keeping empty pieces. -/
def splitDotSpace : Str → List Str
  | [] => [[]]
  | '.' :: ' ' :: rest => [] :: splitDotSpace rest
  | c :: rest =>
    match splitDotSpace rest with
    | [] => [[c]]
    | h :: t => (c :: h) :: t

namespace DataProcessor

/-- `DataProcessor.clean_html_content` (src/services/data_preprocessor.py,
lines 15-29).  `getText` is the oracle for BeautifulSoup's
`soup.get_text()` (third-party markup extraction, not part of src/); the
repository's own code is the falsy early return, the whitespace collapse and
the final strip. -/
def clean_html_content (getText : Str → Str) (content : Str) : Str :=
  if content = [] then [] else pyStrip (collapseWs (getText content))

/-- The fields of one raw patent JSON object that
`DataProcessor.extract_patent_data` reads: `patent_number`, the `text` of
each entry of `titles`, the `paragraph_markup` of each entry of `abstracts`,
the `paragraph_markup` of the claims inside each entry of `claims`, and the
`paragraph_markup` of each entry of `descriptions`. -/
structure RawPatent where
  patent_number : Str
  titles : List Str
  abstracts : List Str
  claims_groups : List (List Str)
  descriptions : List Str

/-- The flat record returned by `DataProcessor.extract_patent_data`. -/
structure Doc where
  patent_number : Str
  title : Str
  abstract : Str
  claims : Str
  description : Str
  searchable_text : Str
deriving DecidableEq

/-- `DataProcessor.extract_patent_data` (src/services/data_preprocessor.py,
lines 31-83).  The body never raises in this embedding, so the `except`
branch returning `None` is unreachable and the function is total. -/
def extract_patent_data (g : Str → Str) (p : RawPatent) : Doc :=
  let title := p.titles.headD []
  let abstract_text :=
    match p.abstracts with
    | [] => []
    | a :: _ => clean_html_content g a
  let claims_text :=
    match p.claims_groups with
    | [] => []
    | cl :: _ => joinSep [' '] ((cl.take 5).map (clean_html_content g))
  let description_text :=
    match p.descriptions with
    | [] => []
    | d :: _ =>
      let s := clean_html_content g d
      if s.length > 2000 then s.take 2000 ++ ['.', '.', '.'] else s
  { patent_number := p.patent_number
    title := title
    abstract := abstract_text
    claims := claims_text
    description := description_text
    searchable_text := pyStrip (abstract_text ++ [' '] ++ claims_text) }

/-- A processed document together with the embedding vector attached to it by
`load_and_process_documents` (the dict gains an `embedding` key). -/
structure IndexedDoc where
  doc : Doc
  embedding : List ℚ
deriving DecidableEq

/-- `DataProcessor.load_and_process_documents`
(src/services/data_preprocessor.py, lines 85-120), over the already-decoded
JSON records `raws` (file enumeration and JSON decoding are I/O).  `embed` is
the oracle for `self.model.encode` (the sentence-transformer model, not part
of src/).  A record is kept only when it processed successfully and its
`searchable_text` is truthy (non-empty). -/
def load_and_process_documents (g : Str → Str) (embed : Str → List ℚ)
    (raws : List RawPatent) : List IndexedDoc :=
  (((raws.map (extract_patent_data g)).filter
      (fun d => !d.searchable_text.isEmpty)).map
    (fun d => ⟨d, embed d.searchable_text⟩))

end DataProcessor

namespace SearchService

/-- The per-document metadata dict stored alongside each indexed vector
(src/services/search_service.py, lines 51-57). -/
structure EntryMeta where
  patent_number : Str
  title : Str
  abstract : Str
  claims : Str
  description : Str
deriving DecidableEq

/-- One entry of the persisted collection: id, metadata dict, the raw
searchable text stored as the document body, and the embedding vector. -/
structure IndexEntry where
  id : Str
  metadata : EntryMeta
  document : Str
  embedding : List ℚ
deriving DecidableEq

/-- The entry that `SearchService.index_documents` builds from one processed
document dict (src/services/search_service.py, lines 48-58): the id is the
document's `patent_number`. -/
def docToEntry (x : DataProcessor.IndexedDoc) : IndexEntry :=
  { id := x.doc.patent_number
    metadata :=
      { patent_number := x.doc.patent_number
        title := x.doc.title
        abstract := x.doc.abstract
        claims := x.doc.claims
        description := x.doc.description }
    document := x.doc.searchable_text
    embedding := x.embedding }

/-- Modelled from the spec: the chromadb collection's bulk insert is
third-party code not in src/; §4.3 specifies the Vector Index's insert as
"idempotent per id — indexing the same id twice overwrites".  Inserting an
entry whose id is already present replaces that entry; otherwise the entry is
appended. -/
def upsertOne : List IndexEntry → IndexEntry → List IndexEntry
  | [], e => [e]
  | x :: rest, e => if x.id = e.id then e :: rest else x :: upsertOne rest e

/-- `SearchService.index_documents` (src/services/search_service.py, lines
32-72).  `store` is the current persisted collection (`none` when the
collection has never been created; the call then creates it empty, with the
cosine metric, before inserting). -/
def index_documents (store : Option (List IndexEntry))
    (docs : List DataProcessor.IndexedDoc) : List IndexEntry :=
  (docs.map docToEntry).foldl upsertOne (store.getD [])

/-- The ids present in a persisted collection, in order. -/
def keys (st : List IndexEntry) : List Str := st.map (·.id)

/-- How many entries of the collection carry the id `i`. -/
def countKey (st : List IndexEntry) (i : Str) : Nat :=
  st.countP (fun e => decide (e.id = i))

/-- One formatted search result (src/services/search_service.py, lines
100-107). -/
structure SearchResult where
  patent_number : Str
  title : Str
  abstract : Str
  claims : Str
  description : Str
  score : ℚ
deriving DecidableEq

/-- Python `round(x, 4)` on the similarity score, embedded over ℚ: round to
the nearest multiple of 1/10000 (the exact float tie-breaking of CPython's
`round` is abstracted into the fixed rounding function `round`). -/
def round4 (x : ℚ) : ℚ := (round (x * 10000) : ℚ) / 10000

/-- The body of the result-formatting loop for one row returned by the
vector lookup: metadata plus `score = round(1 - distance, 4)`
(src/services/search_service.py, lines 93-108). -/
def formatRow (r : EntryMeta × ℚ) : SearchResult :=
  { patent_number := r.1.patent_number
    title := r.1.title
    abstract := r.1.abstract
    claims := r.1.claims
    description := r.1.description
    score := round4 (1 - r.2) }

/-- The result-formatting loop of `SearchService.search`, appending one
formatted result per returned row, in the rows' order. -/
def formatLoop : List (EntryMeta × ℚ) → List SearchResult
  | [] => []
  | r :: rest => formatRow r :: formatLoop rest

/-- `search_results` as built by `SearchService.search` (lines 91-110): the
guard `if results['metadatas'] and len(results['metadatas'][0]) > 0` leaves
the empty list in place when the lookup returned no rows. -/
def formatResults (rows : List (EntryMeta × ℚ)) : List SearchResult :=
  if rows.isEmpty then [] else formatLoop rows

/-- Modelled from the spec: the chromadb `collection.query` implementation is
not in src/; §4.3 specifies it as returning rows ordered ascending by cosine
distance (the store's own deterministic order), of length at most `k`, and
"empty if the index has zero entries".  `rank` is the oracle producing the
store's ranked (metadata, distance) rows for the query embedding (the ANN
geometry lives in the third-party store and the embedding model). -/
def chromaQuery (rank : List IndexEntry → List (EntryMeta × ℚ))
    (entries : List IndexEntry) (k : Nat) : List (EntryMeta × ℚ) :=
  if entries.isEmpty then [] else (rank entries).take k

/-- The message of the exception `SearchService.search` raises when no
collection exists (src/services/search_service.py, line 78). -/
def notReadyMsg : Str :=
  ("No collection found. Please index documents first.").toList

/-- `SearchService.search` (src/services/search_service.py, lines 74-114).
A raised exception is modelled as `Except.error` carrying the exception
message; the `except` clause at lines 112-114 logs and re-raises, so it is
transparent. -/
def search (rank : List IndexEntry → List (EntryMeta × ℚ))
    (coll : Option (List IndexEntry)) (_query : Str) (top_k : Nat) :
    Except Str (List SearchResult) :=
  match coll with
  | none => .error notReadyMsg
  | some entries => .ok (formatResults (chromaQuery rank entries top_k))

end SearchService

namespace SummarizationService

/-- Sentinel returned for an empty passage list
(src/services/summarization_service.py, line 21). -/
def sentinel_empty : Str :=
  ("No descriptions available for summarization.").toList

/-- Sentinel returned when every passage is empty or whitespace-only
(src/services/summarization_service.py, line 25). -/
def sentinel_novalid : Str :=
  ("No valid descriptions found for summarization.").toList

/-- The fixed fallback disclosure note appended by `_simple_summarization`
(src/services/summarization_service.py, line 82). -/
def fallback_note : Str :=
  ("\n\n[Note: This summary was generated using a simple extraction method. For better summaries, ensure Groq is available.]").toList

/-- The accumulation loop of `_simple_summarization` (lines 71-76): walk the
sentence units, append `sentence.strip()` while `current_length +
len(sentence) < 500` (the unstripped length is what is accumulated), stop at
the first unit that would break the budget. -/
def greedyLoop : List Str → Nat → List Str
  | [], _ => []
  | s :: rest, cur =>
    if cur + s.length < 500 then pyStrip s :: greedyLoop rest (cur + s.length)
    else []

/-- The joined summary body of `_simple_summarization` (line 78), before the
terminal-period fix-up and the disclosure note. -/
def simpleBody (text : Str) : Str :=
  joinSep ['.', ' '] (greedyLoop (splitDotSpace text) 0)

/-- `SummarizationService._simple_summarization`
(src/services/summarization_service.py, lines 63-86).  The body never raises
in this embedding, so the `except` branch is unreachable and the function is
total. -/
def simple_summarization (text : Str) : Str :=
  (if (simpleBody text).getLast? = some '.' then simpleBody text
   else simpleBody text ++ ['.']) ++ fallback_note

/-- `combined_text` (src/services/summarization_service.py, line 23): join
the truthy (non-empty) passages with a blank-line separator. -/
def combined (descriptions : List Str) : Str :=
  joinSep ['\n', '\n'] (descriptions.filter (fun d => !d.isEmpty))

/-- `SummarizationService.summarize_descriptions`
(src/services/summarization_service.py, lines 18-31).  `primary` is the
oracle for `_summarize_with_groq` (network call to the generative provider,
not in src/): `some out` is a successful completion, `none` is any raised
exception.  The second component of the result counts how many times the
primary provider was invoked. -/
def summarize_descriptions (primary : Str → Option Str)
    (descriptions : List Str) : Str × Nat :=
  if descriptions.isEmpty then (sentinel_empty, 0)
  else if pyStrip (combined descriptions) = [] then (sentinel_novalid, 0)
  else
    match primary (combined descriptions) with
    | some out => (out, 1)
    | none => (simple_summarization (combined descriptions), 1)

end SummarizationService

namespace App

/-- Response model `DocumentInfo` (src/app.py, lines 35-38). -/
structure DocumentInfo where
  patent_number : Str
  title : Str
  relevance_score : ℚ
deriving DecidableEq

/-- Response model `SearchResponse` (src/app.py, lines 40-44).  The
`processing_time` field is wall-clock I/O and is not modelled. -/
structure SearchResponse where
  query : Str
  top_documents : List DocumentInfo
  summary : Str
deriving DecidableEq

/-- A Python exception as observed by the `/search` handler: either a
FastAPI `HTTPException` (status code and detail) or any other exception
carrying its message. -/
inductive PyExc where
  | http : Nat → Str → PyExc
  | other : Str → PyExc
deriving DecidableEq

/-- Python `str(e)` on a handler exception: starlette's
`HTTPException.__str__` is `f"{status_code}: {detail}"`; for a plain
exception it is the message. -/
def strOfExc : PyExc → Str
  | .http code detail => (Nat.repr code).toList ++ [':', ' '] ++ detail
  | .other m => m

/-- The `try` body of the `/search` handler (src/app.py, lines 105-141).
`core` is the outcome of `search_service.search(query, top_k=3)` (`error` =
the exception it raised), `summarizer` the total summarization call.  The
handler raises 400 for a whitespace query, 404 for zero results, and
otherwise builds the response. -/
def tryBody (core : Except Str (List SearchService.SearchResult))
    (summarizer : List Str → Str) (query : Str) :
    Except PyExc SearchResponse :=
  if pyStrip query = [] then .error (.http 400 (("Query cannot be empty").toList))
  else
    match core with
    | .error m => .error (.other m)
    | .ok results =>
      if results.isEmpty then
        .error (.http 404 (("No relevant documents found").toList))
      else
        .ok { query := query
              top_documents :=
                results.map (fun r => ⟨r.patent_number, r.title, r.score⟩)
              summary := summarizer (results.map (·.description)) }

/-- The `/search` handler (src/app.py, lines 92-144): the whole body runs
inside `try`, and the final `except Exception as e` clause re-raises every
exception — including the handler's own `HTTPException`s — as
`HTTPException(500, "Internal server error: " + str(e))`. -/
def search_endpoint (core : Except Str (List SearchService.SearchResult))
    (summarizer : List Str → Str) (query : Str) :
    Except PyExc SearchResponse :=
  match tryBody core summarizer query with
  | .ok r => .ok r
  | .error e =>
    .error (.http 500 (("Internal server error: ").toList ++ strOfExc e))

end App

/-- Concrete markup extractor used by witnesses: every input extracts to a
2001-character text. -/
def longGetText : Str → Str := fun _ => List.replicate 2001 'a'

/-- Concrete raw record used by witnesses: a single description entry. -/
def longDescPatent : DataProcessor.RawPatent :=
  { patent_number := []
    titles := []
    abstracts := []
    claims_groups := []
    descriptions := [['x']] }

/-- Concrete raw record with a non-empty abstract, used by witnesses. -/
def helloPatent : DataProcessor.RawPatent :=
  { patent_number := ['P', '1']
    titles := []
    abstracts := [("hello").toList]
    claims_groups := []
    descriptions := [] }

/-- Concrete raw record with no abstract and no claims, used by witnesses. -/
def emptyPatent : DataProcessor.RawPatent :=
  { patent_number := ['P', '0']
    titles := []
    abstracts := []
    claims_groups := []
    descriptions := [] }

/-- Concrete embedding oracle used by witnesses. -/
def zeroEmbed : Str → List ℚ := fun _ => []

/-- The accumulation of claim C9's wording: the units themselves
(unstripped) are accumulated, in order, while the cumulative character
length stays under the 500-character budget. -/
def specGreedyUnits : List Str → Nat → List Str
  | [], _ => []
  | s :: rest, cur =>
    if cur + s.length < 500 then s :: specGreedyUnits rest (cur + s.length)
    else []

/-- The summary body as claim C9 words it: the accumulated units, in their
original order, rejoined with the delimiter unmodified. -/
def claimBody (text : Str) : Str :=
  joinSep ['.', ' '] (specGreedyUnits (splitDotSpace text) 0)

/-- Total character length of a list of sentence units. -/
def sumLen (xs : List Str) : Nat := (xs.map List.length).sum

/-- Concrete ranking oracle used by witnesses: the store ranks no rows. -/
def emptyRank : List SearchService.IndexEntry →
    List (SearchService.EntryMeta × ℚ) := fun _ => []

/-- First version of a processed document with id `P1`, used by witnesses. -/
def sampleDoc1 : DataProcessor.IndexedDoc :=
  { doc :=
      { patent_number := ['P', '1']
        title := ['t', '1']
        abstract := ['a', '1']
        claims := ['c', '1']
        description := ['d', '1']
        searchable_text := ['s', '1'] }
    embedding := [] }

/-- Second version of the same id `P1` with different metadata, used by
witnesses. -/
def sampleDoc2 : DataProcessor.IndexedDoc :=
  { doc :=
      { patent_number := ['P', '1']
        title := ['t', '2']
        abstract := ['a', '2']
        claims := ['c', '2']
        description := ['d', '2']
        searchable_text := ['s', '2'] }
    embedding := [] }

/-
Helper lemmas about the Python string primitives.
-/

/-- A maximal-run collapse leaves a list whose head is the original head
whenever that head is not whitespace. -/
theorem collapseWs_head_not_ws (c : Char) (rest : Str) (h : pws c = false) :
    ∃ t, collapseWs (c :: rest) = c :: t := by
  cases rest with
  | nil =>
    refine ⟨[], ?_⟩
    simp [collapseWs, h]
  | cons c₂ r =>
    refine ⟨collapseWs (c₂ :: r), ?_⟩
    simp [collapseWs, h]

/-- After collapsing, no two adjacent characters are both whitespace. -/
theorem chain'_collapseWs (l : Str) :
    List.Chain' (fun a b => (pws a && pws b) = false) (collapseWs l) := by
  induction l with
  | nil => simp [collapseWs]
  | cons c rest ih =>
    cases rest with
    | nil =>
      by_cases h : pws c = true <;> simp [collapseWs, h]
    | cons c₂ r =>
      by_cases h : (pws c && pws c₂) = true
      · simpa [collapseWs, h] using ih
      · have hc : collapseWs (c :: c₂ :: r) =
            (if pws c then ' ' else c) :: collapseWs (c₂ :: r) := by
          simp [collapseWs, h]
        rw [hc, List.chain'_cons']
        refine ⟨?_, ih⟩
        intro y hy
        by_cases hcw : pws c = true
        · have hc₂ : pws c₂ = false := by
            cases hpc₂ : pws c₂ <;> simp [hcw, hpc₂] at h ⊢
          obtain ⟨t, ht⟩ := collapseWs_head_not_ws c₂ r hc₂
          rw [ht] at hy
          simp only [List.head?_cons, Option.mem_def, Option.some.injEq] at hy
          subst hy
          simp [hc₂]
        · have hcf : pws c = false := by simpa using hcw
          simp [hcf]

/-- `dropWhile` preserves the no-adjacent-whitespace chain. -/
theorem chain'_dropWhile {R : Char → Char → Prop} (p : Char → Bool) (l : Str)
    (h : List.Chain' R l) : List.Chain' R (l.dropWhile p) := by
  induction l with
  | nil => simp [List.dropWhile]
  | cons a rest ih =>
    cases hpa : p a with
    | true => simpa [List.dropWhile, hpa] using ih h.tail
    | false =>
      have hd : List.dropWhile p (a :: rest) = a :: rest := by
        simp [List.dropWhile, hpa]
      rw [hd]
      exact h

/-- Reversal preserves the (symmetric) no-adjacent-whitespace chain. -/
theorem chain'_ws_reverse (l : Str)
    (h : List.Chain' (fun a b => (pws a && pws b) = false) l) :
    List.Chain' (fun a b => (pws a && pws b) = false) l.reverse := by
  rw [List.chain'_reverse]
  refine h.imp ?_
  intro a b hab
  show (pws b && pws a) = false
  rw [Bool.and_comm]
  exact hab

/-- Stripping preserves the no-adjacent-whitespace chain. -/
theorem chain'_pyStrip (l : Str)
    (h : List.Chain' (fun a b => (pws a && pws b) = false) l) :
    List.Chain' (fun a b => (pws a && pws b) = false) (pyStrip l) := by
  unfold pyStrip
  exact chain'_ws_reverse _ (chain'_dropWhile pws _ (chain'_ws_reverse _ (chain'_dropWhile pws _ h)))

/-- The head surviving `dropWhile p` does not satisfy `p`. -/
theorem head_dropWhile_not (p : Char → Bool) (l : Str) (x : Char)
    (h : (l.dropWhile p).head? = some x) : p x = false := by
  induction l with
  | nil => simp [List.dropWhile] at h
  | cons a rest ih =>
    cases hpa : p a with
    | true => exact ih (by simpa [List.dropWhile, hpa] using h)
    | false =>
      simp [List.dropWhile, hpa] at h
      rw [← h]
      exact hpa

/-- A nonempty `dropWhile` keeps the original last element. -/
theorem getLast?_dropWhile (p : Char → Bool) (l : Str)
    (h : l.dropWhile p ≠ []) : (l.dropWhile p).getLast? = l.getLast? := by
  induction l with
  | nil => simp [List.dropWhile] at h
  | cons a rest ih =>
    cases hpa : p a with
    | true =>
      have hd : List.dropWhile p (a :: rest) = List.dropWhile p rest := by
        simp [List.dropWhile, hpa]
      rw [hd] at h ⊢
      have hrest : rest ≠ [] := by
        intro he
        subst he
        simp [List.dropWhile] at h
      rw [ih h]
      cases rest with
      | nil => exact absurd rfl hrest
      | cons b t => simp [List.getLast?_cons_cons]
    | false =>
      have hd : List.dropWhile p (a :: rest) = a :: rest := by
        simp [List.dropWhile, hpa]
      rw [hd]

/-- The first character of a stripped list is not whitespace. -/
theorem pyStrip_head_not_ws (l : Str) (x : Char)
    (h : (pyStrip l).head? = some x) : pws x = false := by
  unfold pyStrip at h
  rw [List.head?_reverse] at h
  set m := (l.dropWhile pws).reverse.dropWhile pws with hm
  by_cases hnil : m = []
  · rw [hnil] at h
    simp at h
  · rw [hm, getLast?_dropWhile pws _ (hm ▸ hnil), List.getLast?_reverse] at h
    exact head_dropWhile_not pws l x h

/-- The last character of a stripped list is not whitespace. -/
theorem pyStrip_getLast_not_ws (l : Str) (x : Char)
    (h : (pyStrip l).getLast? = some x) : pws x = false := by
  unfold pyStrip at h
  rw [List.getLast?_reverse] at h
  exact head_dropWhile_not pws _ x h

/-- Claim C10: `clean_html_content` returns the empty string on empty (falsy)
input, and otherwise — for any markup extractor — its result has no leading
whitespace, no trailing whitespace, and no two adjacent whitespace
characters (every whitespace run of the extracted text is collapsed to a
single space and the ends are trimmed). -/
theorem C10_clean_html_whitespace (g : Str → Str) (content : Str) :
    (content = [] → DataProcessor.clean_html_content g content = []) ∧
    List.Chain' (fun a b => (pws a && pws b) = false)
      (DataProcessor.clean_html_content g content) ∧
    (∀ x, (DataProcessor.clean_html_content g content).head? = some x →
      pws x = false) ∧
    (∀ x, (DataProcessor.clean_html_content g content).getLast? = some x →
      pws x = false) := by
  by_cases hc : content = []
  · subst hc
    refine ⟨fun _ => rfl, ?_, ?_, ?_⟩ <;>
      simp [DataProcessor.clean_html_content]
  · have hcl : DataProcessor.clean_html_content g content
        = pyStrip (collapseWs (g content)) := by
      simp [DataProcessor.clean_html_content, hc]
    refine ⟨fun h => absurd h hc, ?_, ?_, ?_⟩
    · rw [hcl]
      exact chain'_pyStrip _ (chain'_collapseWs _)
    · intro x hx
      rw [hcl] at hx
      exact pyStrip_head_not_ws _ x hx
    · intro x hx
      rw [hcl] at hx
      exact pyStrip_getLast_not_ws _ x hx

/-- Witness for C10 at the concrete extractor `id` and input `" a  b "`:
the head of the cleaned text exists and is not whitespace, and the cleaned
text carries the no-adjacent-whitespace chain. -/
theorem C10_clean_html_whitespace_witness :
    ((" a  b ").toList ≠ ([] : Str)) ∧
    (DataProcessor.clean_html_content id ((" a  b ").toList)).head? = some 'a' ∧
    pws 'a' = false ∧
    List.Chain' (fun a b => (pws a && pws b) = false)
      (DataProcessor.clean_html_content id ((" a  b ").toList)) := by
  refine ⟨by decide, by decide, ?_, ?_⟩
  · exact (C10_clean_html_whitespace id ((" a  b ").toList)).2.2.1 'a' (by decide)
  · exact (C10_clean_html_whitespace id ((" a  b ").toList)).2.1

/-- Collapsing is the identity on whitespace-free text. -/
theorem collapseWs_no_ws (l : Str) (h : ∀ c ∈ l, pws c = false) :
    collapseWs l = l := by
  induction l with
  | nil => rfl
  | cons c rest ih =>
    cases rest with
    | nil => simp [collapseWs, h c (by simp)]
    | cons c₂ r =>
      have hc : pws c = false := h c (by simp)
      have hrest : ∀ x ∈ c₂ :: r, pws x = false := fun x hx =>
        h x (List.mem_cons_of_mem c hx)
      simp [collapseWs, hc, ih hrest]

/-- `dropWhile pws` is the identity on whitespace-free text. -/
theorem dropWhile_no_ws (l : Str) (h : ∀ c ∈ l, pws c = false) :
    l.dropWhile pws = l := by
  cases l with
  | nil => rfl
  | cons a rest => simp [List.dropWhile, h a (by simp)]

/-- Stripping is the identity on whitespace-free text. -/
theorem pyStrip_no_ws (l : Str) (h : ∀ c ∈ l, pws c = false) :
    pyStrip l = l := by
  unfold pyStrip
  rw [dropWhile_no_ws l h,
    dropWhile_no_ws l.reverse (fun c hc => h c (List.mem_reverse.mp hc)),
    List.reverse_reverse]

/-- Evaluation of the witness extractor through `clean_html_content`. -/
theorem clean_longGetText_eval :
    DataProcessor.clean_html_content longGetText ['x'] =
      List.replicate 2001 'a' := by
  have hall : ∀ c ∈ List.replicate 2001 'a', pws c = false := by
    intro c hc
    rw [List.eq_of_mem_replicate hc]
    decide
  have h1 : DataProcessor.clean_html_content longGetText ['x'] =
      pyStrip (collapseWs (List.replicate 2001 'a')) := by
    unfold DataProcessor.clean_html_content longGetText
    rw [if_neg (by simp)]
  rw [h1, collapseWs_no_ws _ hall, pyStrip_no_ws _ hall]

/-- Claim C6: for a raw record with a description entry, if the cleaned
description text has length `L > 2000` the stored description is its first
2000 characters followed by the 3-character ellipsis (total length 2003);
if `L ≤ 2000` the stored description is the cleaned text unmodified. -/
theorem C6_description_truncation (g : Str → Str)
    (p : DataProcessor.RawPatent) (d : Str) (rest : List Str)
    (h : p.descriptions = d :: rest) :
    ((DataProcessor.clean_html_content g d).length > 2000 →
      (DataProcessor.extract_patent_data g p).description =
        (DataProcessor.clean_html_content g d).take 2000 ++ ['.', '.', '.'] ∧
      (DataProcessor.extract_patent_data g p).description.length = 2003) ∧
    ((DataProcessor.clean_html_content g d).length ≤ 2000 →
      (DataProcessor.extract_patent_data g p).description =
        DataProcessor.clean_html_content g d) := by
  have hdesc : (DataProcessor.extract_patent_data g p).description =
      (if (DataProcessor.clean_html_content g d).length > 2000
       then (DataProcessor.clean_html_content g d).take 2000 ++ ['.', '.', '.']
       else DataProcessor.clean_html_content g d) := by
    simp [DataProcessor.extract_patent_data, h]
  constructor
  · intro hl
    rw [hdesc, if_pos hl]
    refine ⟨rfl, ?_⟩
    rw [List.length_append, List.length_take]
    simp only [List.length_cons, List.length_nil]
    omega
  · intro hl
    rw [hdesc, if_neg (by omega)]

/-- Witness for C6 at a record whose cleaned description has 2001
characters. -/
theorem C6_description_truncation_witness :
    (longDescPatent.descriptions = ['x'] :: []) ∧
    ((DataProcessor.clean_html_content longGetText ['x']).length > 2000) ∧
    ((DataProcessor.extract_patent_data longGetText longDescPatent).description =
        (DataProcessor.clean_html_content longGetText ['x']).take 2000 ++
          ['.', '.', '.'] ∧
      (DataProcessor.extract_patent_data longGetText
          longDescPatent).description.length = 2003) := by
  have hlen : (DataProcessor.clean_html_content longGetText ['x']).length
      > 2000 := by
    rw [clean_longGetText_eval, List.length_replicate]
    omega
  exact ⟨rfl, hlen,
    (C6_description_truncation longGetText longDescPatent ['x'] [] rfl).1 hlen⟩

/-- Claim C7: every record in the collection returned by
`load_and_process_documents` has non-empty `searchable_text`, and a record
whose extracted abstract and claims are both empty (so its searchable text
normalizes to empty) is excluded from the output entirely. -/
theorem C7_empty_text_exclusion (g : Str → Str) (embed : Str → List ℚ)
    (raws : List DataProcessor.RawPatent) :
    (∀ x ∈ DataProcessor.load_and_process_documents g embed raws,
      x.doc.searchable_text ≠ []) ∧
    (∀ p emb,
      (DataProcessor.extract_patent_data g p).abstract = [] →
      (DataProcessor.extract_patent_data g p).claims = [] →
      (⟨DataProcessor.extract_patent_data g p, emb⟩ :
          DataProcessor.IndexedDoc) ∉
        DataProcessor.load_and_process_documents g embed raws) := by
  have hmem : ∀ x ∈ DataProcessor.load_and_process_documents g embed raws,
      x.doc.searchable_text ≠ [] := by
    intro x hx
    unfold DataProcessor.load_and_process_documents at hx
    rw [List.mem_map] at hx
    obtain ⟨d, hd, hxd⟩ := hx
    rw [List.mem_filter] at hd
    have hne : (!d.searchable_text.isEmpty) = true := hd.2
    subst hxd
    intro he
    rw [he] at hne
    simp at hne
  refine ⟨hmem, ?_⟩
  intro p emb h1 h2 hin
  have hs : (DataProcessor.extract_patent_data g p).searchable_text = [] := by
    have hrfl : (DataProcessor.extract_patent_data g p).searchable_text =
        pyStrip ((DataProcessor.extract_patent_data g p).abstract ++ [' '] ++
          (DataProcessor.extract_patent_data g p).claims) := rfl
    rw [hrfl, h1, h2]
    decide
  exact hmem _ hin hs

/-- Witness for C7: in a two-record corpus the record with an abstract is
kept with non-empty searchable text, while the record with empty abstract and
claims is excluded. -/
theorem C7_empty_text_exclusion_witness :
    ((⟨DataProcessor.extract_patent_data id helloPatent, ([] : List ℚ)⟩ :
        DataProcessor.IndexedDoc) ∈
      DataProcessor.load_and_process_documents id zeroEmbed
        [helloPatent, emptyPatent]) ∧
    ((⟨DataProcessor.extract_patent_data id helloPatent, ([] : List ℚ)⟩ :
        DataProcessor.IndexedDoc).doc.searchable_text ≠ []) ∧
    ((DataProcessor.extract_patent_data id emptyPatent).abstract = []) ∧
    ((DataProcessor.extract_patent_data id emptyPatent).claims = []) ∧
    ((⟨DataProcessor.extract_patent_data id emptyPatent, ([] : List ℚ)⟩ :
        DataProcessor.IndexedDoc) ∉
      DataProcessor.load_and_process_documents id zeroEmbed
        [helloPatent, emptyPatent]) := by
  refine ⟨by decide, ?_, by decide, by decide, ?_⟩
  · exact (C7_empty_text_exclusion id zeroEmbed
      [helloPatent, emptyPatent]).1 _ (by decide)
  · exact (C7_empty_text_exclusion id zeroEmbed
      [helloPatent, emptyPatent]).2 emptyPatent [] (by decide) (by decide)

/-- An id in the store after an upsert is the upserted id or was already
present. -/
theorem mem_keys_upsertOne (st : List SearchService.IndexEntry)
    (e : SearchService.IndexEntry) (a : Str)
    (h : a ∈ SearchService.keys (SearchService.upsertOne st e)) :
    a = e.id ∨ a ∈ SearchService.keys st := by
  induction st with
  | nil =>
    left
    simpa [SearchService.upsertOne, SearchService.keys] using h
  | cons x rest ih =>
    by_cases hx : x.id = e.id
    · rw [SearchService.upsertOne, if_pos hx] at h
      simp only [SearchService.keys, List.map_cons, List.mem_cons] at h ⊢
      tauto
    · rw [SearchService.upsertOne, if_neg hx] at h
      simp only [SearchService.keys, List.map_cons, List.mem_cons] at h ⊢
      rcases h with h | h
      · tauto
      · rcases ih h with h' | h' <;> tauto

/-- Upserting preserves distinctness of the store's ids. -/
theorem nodup_keys_upsertOne (st : List SearchService.IndexEntry)
    (e : SearchService.IndexEntry)
    (h : (SearchService.keys st).Nodup) :
    (SearchService.keys (SearchService.upsertOne st e)).Nodup := by
  induction st with
  | nil => simp [SearchService.upsertOne, SearchService.keys]
  | cons x rest ih =>
    rw [SearchService.keys, List.map_cons, List.nodup_cons] at h
    by_cases hx : x.id = e.id
    · rw [SearchService.upsertOne, if_pos hx, SearchService.keys,
        List.map_cons, List.nodup_cons]
      exact ⟨hx ▸ h.1, h.2⟩
    · rw [SearchService.upsertOne, if_neg hx, SearchService.keys,
        List.map_cons, List.nodup_cons]
      refine ⟨?_, ih h.2⟩
      intro hmem
      rcases mem_keys_upsertOne rest e x.id hmem with h' | h'
      · exact hx h'
      · exact h.1 h'

/-- An absent id has zero entries. -/
theorem countKey_eq_zero_of_not_mem (st : List SearchService.IndexEntry)
    (i : Str) (h : i ∉ SearchService.keys st) :
    SearchService.countKey st i = 0 := by
  induction st with
  | nil => rfl
  | cons x rest ih =>
    rw [SearchService.keys, List.map_cons, List.mem_cons] at h
    push_neg at h
    rw [SearchService.countKey, List.countP_cons]
    have h1 : SearchService.countKey rest i = 0 := ih (by
      rw [SearchService.keys]
      exact h.2)
    rw [SearchService.countKey] at h1
    rw [h1]
    simp [Ne.symm h.1]

/-- After upserting into a store with distinct ids, the upserted id has
exactly one entry. -/
theorem countKey_upsertOne_self (st : List SearchService.IndexEntry)
    (e : SearchService.IndexEntry)
    (h : (SearchService.keys st).Nodup) :
    SearchService.countKey (SearchService.upsertOne st e) e.id = 1 := by
  induction st with
  | nil => simp [SearchService.upsertOne, SearchService.countKey]
  | cons x rest ih =>
    rw [SearchService.keys, List.map_cons, List.nodup_cons] at h
    by_cases hx : x.id = e.id
    · rw [SearchService.upsertOne, if_pos hx, SearchService.countKey,
        List.countP_cons]
      have h0 : SearchService.countKey rest e.id = 0 :=
        countKey_eq_zero_of_not_mem rest e.id (hx ▸ h.1)
      rw [SearchService.countKey] at h0
      rw [h0]
      simp
    · rw [SearchService.upsertOne, if_neg hx, SearchService.countKey,
        List.countP_cons]
      have h1 := ih h.2
      rw [SearchService.countKey] at h1
      rw [h1]
      simp [hx]

/-- After upserting into a store with distinct ids, the only entry carrying
the upserted id is the upserted entry itself. -/
theorem mem_upsertOne_eq (st : List SearchService.IndexEntry)
    (e x : SearchService.IndexEntry)
    (h : (SearchService.keys st).Nodup)
    (hmem : x ∈ SearchService.upsertOne st e) (hid : x.id = e.id) : x = e := by
  induction st with
  | nil =>
    rw [SearchService.upsertOne] at hmem
    simpa using hmem
  | cons y rest ih =>
    rw [SearchService.keys, List.map_cons, List.nodup_cons] at h
    by_cases hy : y.id = e.id
    · rw [SearchService.upsertOne, if_pos hy, List.mem_cons] at hmem
      rcases hmem with hmem | hmem
      · exact hmem
      · exfalso
        apply h.1
        rw [hy, ← hid]
        exact List.mem_map_of_mem (·.id) hmem
    · rw [SearchService.upsertOne, if_neg hy, List.mem_cons] at hmem
      rcases hmem with hmem | hmem
      · subst hmem
        exact absurd hid hy
      · exact ih h.2 hmem

/-- Claim C1 (the Vector Index insert is modelled from the spec's §4.3
upsert contract, chromadb not being in src/): indexing the same id twice via
`index_documents` leaves exactly one entry for that id, carrying the second
document's metadata. -/
theorem C1_idempotent_indexing (st0 : Option (List SearchService.IndexEntry))
    (d1 d2 : DataProcessor.IndexedDoc)
    (hnd : (SearchService.keys (st0.getD [])).Nodup)
    (_hid : d1.doc.patent_number = d2.doc.patent_number) :
    SearchService.countKey
      (SearchService.index_documents
        (some (SearchService.index_documents st0 [d1])) [d2])
      d2.doc.patent_number = 1 ∧
    (∀ e ∈ SearchService.index_documents
        (some (SearchService.index_documents st0 [d1])) [d2],
      e.id = d2.doc.patent_number →
      e.metadata =
        { patent_number := d2.doc.patent_number
          title := d2.doc.title
          abstract := d2.doc.abstract
          claims := d2.doc.claims
          description := d2.doc.description }) := by
  have h2 : SearchService.index_documents
      (some (SearchService.index_documents st0 [d1])) [d2] =
      SearchService.upsertOne
        (SearchService.upsertOne (st0.getD []) (SearchService.docToEntry d1))
        (SearchService.docToEntry d2) := rfl
  have hnd1 : (SearchService.keys
      (SearchService.upsertOne (st0.getD [])
        (SearchService.docToEntry d1))).Nodup :=
    nodup_keys_upsertOne _ _ hnd
  constructor
  · rw [h2]
    exact countKey_upsertOne_self _ (SearchService.docToEntry d2) hnd1
  · intro e he hei
    rw [h2] at he
    have he2 : e = SearchService.docToEntry d2 :=
      mem_upsertOne_eq _ (SearchService.docToEntry d2) e hnd1 he hei
    rw [he2]
    rfl

/-- Witness for C1: indexing id `P1` twice from an empty store leaves one
entry whose metadata is the second version's. -/
theorem C1_idempotent_indexing_witness :
    ((SearchService.keys ((none :
        Option (List SearchService.IndexEntry)).getD [])).Nodup) ∧
    (sampleDoc1.doc.patent_number = sampleDoc2.doc.patent_number) ∧
    (SearchService.countKey
      (SearchService.index_documents
        (some (SearchService.index_documents none [sampleDoc1])) [sampleDoc2])
      sampleDoc2.doc.patent_number = 1) ∧
    ((SearchService.docToEntry sampleDoc2).metadata =
      { patent_number := sampleDoc2.doc.patent_number
        title := sampleDoc2.doc.title
        abstract := sampleDoc2.doc.abstract
        claims := sampleDoc2.doc.claims
        description := sampleDoc2.doc.description }) := by
  refine ⟨by decide, by decide,
    (C1_idempotent_indexing none sampleDoc1 sampleDoc2 (by decide)
      (by decide)).1, ?_⟩
  exact (C1_idempotent_indexing none sampleDoc1 sampleDoc2 (by decide)
    (by decide)).2 (SearchService.docToEntry sampleDoc2) (by decide) rfl

/-- Claim C2 (the chromadb query behavior of an existing collection is
modelled from the spec's §4.3 contract): for every query and positive
`top_k`, searching an existing zero-entry collection returns the empty list
without raising, while searching when no collection has ever been created
raises the distinct "not ready" error, which is distinguishable from a
zero-match result. -/
theorem C2_empty_vs_missing
    (rank : List SearchService.IndexEntry →
      List (SearchService.EntryMeta × ℚ))
    (q : Str) (k : Nat) (_hk : 0 < k) :
    SearchService.search rank (some []) q k = .ok [] ∧
    SearchService.search rank none q k = .error SearchService.notReadyMsg ∧
    (Except.error SearchService.notReadyMsg ≠
      (Except.ok [] : Except Str (List SearchService.SearchResult))) := by
  refine ⟨rfl, rfl, by simp⟩

/-- Witness for C2 at `top_k = 3` and a concrete query. -/
theorem C2_empty_vs_missing_witness :
    (0 < 3) ∧
    (SearchService.search emptyRank (some []) (("abc").toList) 3 = .ok [] ∧
     SearchService.search emptyRank none (("abc").toList) 3 =
       .error SearchService.notReadyMsg ∧
     (Except.error SearchService.notReadyMsg ≠
       (Except.ok [] : Except Str (List SearchService.SearchResult)))) :=
  ⟨by decide, C2_empty_vs_missing emptyRank (("abc").toList) 3 (by decide)⟩

/-- The empty-rows guard of the formatting stage is equivalent to the plain
formatting loop. -/
theorem formatResults_eq_loop (rows : List (SearchService.EntryMeta × ℚ)) :
    SearchService.formatResults rows = SearchService.formatLoop rows := by
  cases rows with
  | nil => rfl
  | cons r rest => rfl

/-- The formatting loop returns one result per returned row. -/
theorem formatLoop_length (rows : List (SearchService.EntryMeta × ℚ)) :
    (SearchService.formatLoop rows).length = rows.length := by
  induction rows with
  | nil => rfl
  | cons r rest ih => simp [SearchService.formatLoop, ih]

/-- The formatting loop is positionally the row formatter. -/
theorem formatLoop_get? (rows : List (SearchService.EntryMeta × ℚ))
    (i : Nat) :
    (SearchService.formatLoop rows).get? i =
      (rows.get? i).map SearchService.formatRow := by
  induction rows generalizing i with
  | nil => simp [SearchService.formatLoop]
  | cons r rest ih =>
    cases i with
    | zero => rfl
    | succ n =>
      rw [SearchService.formatLoop]
      simp only [List.get?_cons_succ]
      exact ih n

/-- Claim C5: whenever the Vector Index lookup yields `n` rows with
distances `d_1 .. d_n` in the index's order, `search` succeeds with exactly
`n` results in that same order, the `i`-th carrying
`score = round(1 - d_i, 4)` — no secondary tie-break or reordering. -/
theorem C5_score_order
    (rank : List SearchService.IndexEntry →
      List (SearchService.EntryMeta × ℚ))
    (entries : List SearchService.IndexEntry) (q : Str) (k : Nat)
    (rows : List (SearchService.EntryMeta × ℚ)) :
    SearchService.search rank (some entries) q k =
      .ok (SearchService.formatResults
        (SearchService.chromaQuery rank entries k)) ∧
    (SearchService.formatResults rows).length = rows.length ∧
    (∀ i, (SearchService.formatResults rows).get? i =
      (rows.get? i).map (fun r =>
        { patent_number := r.1.patent_number
          title := r.1.title
          abstract := r.1.abstract
          claims := r.1.claims
          description := r.1.description
          score := SearchService.round4 (1 - r.2) })) := by
  refine ⟨rfl, ?_, ?_⟩
  · rw [formatResults_eq_loop]
    exact formatLoop_length rows
  · intro i
    rw [formatResults_eq_loop]
    exact formatLoop_get? rows i

/-- `dropWhile` empties a list exactly when every element satisfies the
predicate. -/
theorem dropWhile_eq_nil_iff_all (p : Char → Bool) (l : Str) :
    l.dropWhile p = [] ↔ ∀ c ∈ l, p c = true := by
  induction l with
  | nil => simp [List.dropWhile]
  | cons a rest ih =>
    cases hpa : p a with
    | true => simp [List.dropWhile, hpa, ih]
    | false => simp [List.dropWhile, hpa]

/-- Membership transfers out of a `dropWhile`. -/
theorem mem_of_mem_dropWhile (p : Char → Bool) (l : Str) (c : Char)
    (h : c ∈ l.dropWhile p) : c ∈ l := by
  induction l with
  | nil => simp [List.dropWhile] at h
  | cons a rest ih =>
    cases hpa : p a with
    | true =>
      rw [List.dropWhile, hpa] at h
      exact List.mem_cons_of_mem a (ih h)
    | false =>
      rw [List.dropWhile, hpa] at h
      exact h

/-- If everything after the dropped run satisfies the predicate, everything
did. -/
theorem all_of_dropWhile_all (p : Char → Bool) (l : Str)
    (h : ∀ c ∈ l.dropWhile p, p c = true) : ∀ c ∈ l, p c = true := by
  induction l with
  | nil => simp
  | cons a rest ih =>
    intro c hc
    cases hpa : p a with
    | true =>
      rcases List.mem_cons.mp hc with rfl | hc
      · exact hpa
      · exact ih (by simpa [List.dropWhile, hpa] using h) c hc
    | false =>
      have hd : List.dropWhile p (a :: rest) = a :: rest := by
        rw [List.dropWhile, hpa]
      rw [hd] at h
      exact h c hc

/-- A Python strip yields the empty string exactly when every character is
whitespace. -/
theorem pyStrip_eq_nil_iff (l : Str) :
    pyStrip l = [] ↔ ∀ c ∈ l, pws c = true := by
  unfold pyStrip
  rw [List.reverse_eq_nil_iff, dropWhile_eq_nil_iff_all]
  constructor
  · intro h
    refine all_of_dropWhile_all pws l ?_
    intro c hc
    exact h c (List.mem_reverse.mpr hc)
  · intro h c hc
    exact h c (mem_of_mem_dropWhile pws l c (List.mem_reverse.mp hc))

/-- A character of a joined element is a character of the join. -/
theorem mem_joinSep_of_mem (sep : Str) (xs : List Str) (x : Str) (c : Char)
    (hx : x ∈ xs) (hc : c ∈ x) : c ∈ joinSep sep xs := by
  induction xs with
  | nil => simp at hx
  | cons y rest ih =>
    cases rest with
    | nil =>
      rw [List.mem_singleton] at hx
      subst hx
      simpa [joinSep] using hc
    | cons z t =>
      rw [joinSep]
      rcases List.mem_cons.mp hx with rfl | hx
      · simp [hc]
      · simp [ih hx]

/-- A character of the join comes from the separator or from an element. -/
theorem mem_joinSep_cases (sep : Str) (xs : List Str) (c : Char)
    (hc : c ∈ joinSep sep xs) : c ∈ sep ∨ ∃ x ∈ xs, c ∈ x := by
  induction xs with
  | nil => simp [joinSep] at hc
  | cons y rest ih =>
    cases rest with
    | nil =>
      right
      exact ⟨y, List.mem_singleton_self y, by simpa [joinSep] using hc⟩
    | cons z t =>
      rw [joinSep] at hc
      simp only [List.mem_append] at hc
      rcases hc with (hc | hc) | hc
      · right
        exact ⟨y, List.mem_cons_self y (z :: t), hc⟩
      · left
        exact hc
      · rcases ih hc with hc | ⟨x, hx, hcx⟩
        · left
          exact hc
        · right
          exact ⟨x, List.mem_cons_of_mem y hx, hcx⟩

/-- A passage with a non-whitespace character keeps the combined text of
`summarize_descriptions` from stripping to empty. -/
theorem combined_strip_ne (ds : List Str) (d : Str) (hd : d ∈ ds)
    (hne : pyStrip d ≠ []) :
    pyStrip (SummarizationService.combined ds) ≠ [] := by
  intro h
  rw [pyStrip_eq_nil_iff] at h
  have hnall : ¬ ∀ c ∈ d, pws c = true := by
    intro hall
    exact hne ((pyStrip_eq_nil_iff d).mpr hall)
  push_neg at hnall
  obtain ⟨c, hc, hcw⟩ := hnall
  have hdne : d ≠ [] := by
    rintro rfl
    simp at hc
  have hdf : d ∈ ds.filter (fun x => !x.isEmpty) := by
    rw [List.mem_filter]
    refine ⟨hd, ?_⟩
    cases d with
    | nil => exact absurd rfl hdne
    | cons a t => rfl
  exact hcw (h c (mem_joinSep_of_mem _ _ d c hdf hc))

/-- Claim C3 (amended): on a non-empty passage list holding at least one
non-whitespace passage, a primary-provider failure makes
`summarize_descriptions` return — without raising — the fallback string
`body ++ note`: it is non-empty, it contains the fixed disclosure note, and
its extractive body (the part before the note) ends in a period.  The full
returned string ends with the note's closing bracket, not with a period;
see the counterexample for the claim as stated. -/
theorem C3_fallback_shape (primary : Str → Option Str) (ds : List Str)
    (h1 : ds ≠ []) (h2 : ∃ d ∈ ds, pyStrip d ≠ [])
    (h3 : primary (SummarizationService.combined ds) = none) :
    ∃ body,
      (SummarizationService.summarize_descriptions primary ds).1 =
        body ++ SummarizationService.fallback_note ∧
      body.getLast? = some '.' ∧
      (SummarizationService.summarize_descriptions primary ds).1 ≠ [] ∧
      (∃ pre suf,
        (SummarizationService.summarize_descriptions primary ds).1 =
          pre ++ SummarizationService.fallback_note ++ suf) := by
  obtain ⟨d, hd, hdne⟩ := h2
  have hcne : pyStrip (SummarizationService.combined ds) ≠ [] :=
    combined_strip_ne ds d hd hdne
  have hds : ds.isEmpty = false := by
    cases ds with
    | nil => exact absurd rfl h1
    | cons a t => rfl
  have hres : (SummarizationService.summarize_descriptions primary ds).1 =
      SummarizationService.simple_summarization
        (SummarizationService.combined ds) := by
    unfold SummarizationService.summarize_descriptions
    rw [if_neg (by simp [hds]), if_neg hcne, h3]
  have hnote : SummarizationService.fallback_note ≠ [] := by decide
  rw [hres]
  unfold SummarizationService.simple_summarization
  by_cases hdot : (SummarizationService.simpleBody
      (SummarizationService.combined ds)).getLast? = some '.'
  · rw [if_pos hdot]
    refine ⟨SummarizationService.simpleBody (SummarizationService.combined ds),
      rfl, hdot, ?_,
      ⟨SummarizationService.simpleBody (SummarizationService.combined ds), [],
        by simp⟩⟩
    intro hnil
    rw [List.append_eq_nil] at hnil
    exact hnote hnil.2
  · rw [if_neg hdot]
    refine ⟨SummarizationService.simpleBody (SummarizationService.combined ds)
        ++ ['.'],
      rfl, List.getLast?_concat _, ?_,
      ⟨SummarizationService.simpleBody (SummarizationService.combined ds)
        ++ ['.'], [], by simp⟩⟩
    intro hnil
    rw [List.append_eq_nil] at hnil
    exact hnote hnil.2

/-- Witness for C3 at the passage list `["hello"]` and a failing primary
provider. -/
theorem C3_fallback_shape_witness :
    (((("hello").toList) :: []) ≠ ([] : List Str)) ∧
    (∃ d ∈ ((("hello").toList) :: []), pyStrip d ≠ []) ∧
    (∃ body,
      (SummarizationService.summarize_descriptions (fun _ => none)
        ((("hello").toList) :: [])).1 =
        body ++ SummarizationService.fallback_note ∧
      body.getLast? = some '.' ∧
      (SummarizationService.summarize_descriptions (fun _ => none)
        ((("hello").toList) :: [])).1 ≠ [] ∧
      (∃ pre suf,
        (SummarizationService.summarize_descriptions (fun _ => none)
          ((("hello").toList) :: [])).1 =
          pre ++ SummarizationService.fallback_note ++ suf)) :=
  ⟨by decide, by decide,
    C3_fallback_shape (fun _ => none) ((("hello").toList) :: [])
      (by decide) (by decide) rfl⟩

/-- Counterexample to C3 as stated: at the passage list `["hello"]` with a
failing primary provider the returned string does not end in a period — its
last character is the disclosure note's closing bracket. -/
theorem C3_fallback_counterexample :
    ((SummarizationService.summarize_descriptions (fun _ => none)
      ((("hello").toList) :: [])).1).getLast? ≠ some '.' := by decide

/-- Claim C4 (amended): the empty passage list returns the fixed sentinel
for "no descriptions", and any non-empty all-empty-or-whitespace passage
list returns the distinct fixed sentinel for "no valid descriptions"; in
both cases the primary provider is invoked zero times.  The two sentinels
are two different fixed messages, not the same one; see the
counterexample. -/
theorem C4_sentinels (primary : Str → Option Str) :
    SummarizationService.summarize_descriptions primary [] =
      (SummarizationService.sentinel_empty, 0) ∧
    (∀ ds, ds ≠ [] → (∀ d ∈ ds, pyStrip d = []) →
      SummarizationService.summarize_descriptions primary ds =
        (SummarizationService.sentinel_novalid, 0)) := by
  refine ⟨rfl, ?_⟩
  intro ds hne hall
  have hds : ds.isEmpty = false := by
    cases ds with
    | nil => exact absurd rfl hne
    | cons a t => rfl
  have hcs : pyStrip (SummarizationService.combined ds) = [] := by
    rw [pyStrip_eq_nil_iff]
    intro c hc
    rcases mem_joinSep_cases _ _ c hc with hc | ⟨x, hx, hcx⟩
    · have hcn : c = '\n' := by simpa using hc
      rw [hcn]
      decide
    · have hxds : x ∈ ds := (List.mem_filter.mp hx).1
      have hx0 := hall x hxds
      rw [pyStrip_eq_nil_iff] at hx0
      exact hx0 c hcx
  unfold SummarizationService.summarize_descriptions
  rw [if_neg (by simp [hds]), if_pos hcs]

/-- Witness for C4 at the all-empty-or-whitespace list `["", "  "]`. -/
theorem C4_sentinels_witness :
    ((([] : Str) :: [' ', ' '] :: []) ≠ ([] : List Str)) ∧
    (∀ d ∈ (([] : Str) :: [' ', ' '] :: []), pyStrip d = []) ∧
    (SummarizationService.summarize_descriptions (fun _ => none)
        (([] : Str) :: [' ', ' '] :: []) =
      (SummarizationService.sentinel_novalid, 0)) :=
  ⟨by decide, by decide,
    (C4_sentinels (fun _ => none)).2 (([] : Str) :: [' ', ' '] :: [])
      (by decide) (by decide)⟩

/-- Counterexample to C4 as stated: the sentinel for `[]` and the sentinel
for `["", "  "]` are not the same message. -/
theorem C4_sentinels_counterexample :
    (SummarizationService.summarize_descriptions (fun _ => none) []).1 ≠
      (SummarizationService.summarize_descriptions (fun _ => none)
        (([] : Str) :: [' ', ' '] :: [])).1 := by decide

/-- The code's accumulation loop is the claim-side accumulation with each
kept unit stripped. -/
theorem greedyLoop_eq_map_strip (l : List Str) (cur : Nat) :
    SummarizationService.greedyLoop l cur =
      (specGreedyUnits l cur).map pyStrip := by
  induction l generalizing cur with
  | nil => rfl
  | cons s rest ih =>
    by_cases h : cur + s.length < 500
    · simp [SummarizationService.greedyLoop, specGreedyUnits, h, ih]
    · simp [SummarizationService.greedyLoop, specGreedyUnits, h]

/-- The claim-side accumulation takes an initial segment of the units. -/
theorem specGreedyUnits_append (l : List Str) (cur : Nat) :
    ∃ t, specGreedyUnits l cur ++ t = l := by
  induction l generalizing cur with
  | nil => exact ⟨[], rfl⟩
  | cons s rest ih =>
    by_cases h : cur + s.length < 500
    · obtain ⟨t, ht⟩ := ih (cur + s.length)
      refine ⟨t, ?_⟩
      rw [specGreedyUnits, if_pos h, List.cons_append, ht]
    · refine ⟨s :: rest, ?_⟩
      rw [specGreedyUnits, if_neg h, List.nil_append]

/-- The claim-side accumulation keeps the cumulative length under the
budget. -/
theorem specGreedyUnits_sum (l : List Str) (cur : Nat) (h : cur < 500) :
    sumLen (specGreedyUnits l cur) + cur < 500 := by
  induction l generalizing cur with
  | nil => simpa [specGreedyUnits, sumLen] using h
  | cons s rest ih =>
    by_cases hb : cur + s.length < 500
    · have hrec := ih (cur + s.length) hb
      rw [specGreedyUnits, if_pos hb]
      simp only [sumLen, List.map_cons, List.sum_cons] at hrec ⊢
      omega
    · rw [specGreedyUnits, if_neg hb]
      simpa [sumLen] using h

/-- The claim-side accumulation is the longest initial segment staying
under the budget. -/
theorem specGreedyUnits_maximal (l : List Str) (cur : Nat) (Q : List Str)
    (hQ : ∃ t, Q ++ t = l) (hs : sumLen Q + cur < 500) :
    Q.length ≤ (specGreedyUnits l cur).length := by
  induction l generalizing cur Q with
  | nil =>
    obtain ⟨t, ht⟩ := hQ
    have hq : Q = [] := by
      cases Q with
      | nil => rfl
      | cons a b => simp at ht
    simp [hq]
  | cons s rest ih =>
    cases Q with
    | nil => simp
    | cons q Q2 =>
      obtain ⟨t, ht⟩ := hQ
      rw [List.cons_append] at ht
      injection ht with hqs hrest
      subst hqs
      have hsum : sumLen (q :: Q2) = q.length + sumLen Q2 := by
        simp [sumLen]
      have hb : cur + q.length < 500 := by
        rw [hsum] at hs
        omega
      rw [specGreedyUnits, if_pos hb]
      simp only [List.length_cons]
      have hs2 : sumLen Q2 + (cur + q.length) < 500 := by
        rw [hsum] at hs
        omega
      exact Nat.succ_le_succ (ih (cur + q.length) Q2 ⟨t, hrest⟩ hs2)

/-- Claim C9 (amended): the fallback summarizer splits on the `". "`
delimiter and accumulates exactly the maximal initial segment of units
whose cumulative (unstripped) character length stays under the 500-character
budget; the summary body is those accumulated units in their original
order, each stripped of leading/trailing whitespace, rejoined with the
delimiter — not the unmodified units, see the counterexample. -/
theorem C9_greedy_body (text : Str) (Q : List Str)
    (hQ : ∃ t, Q ++ t = splitDotSpace text)
    (hs : sumLen Q < 500) :
    SummarizationService.simpleBody text =
      joinSep ['.', ' ']
        ((specGreedyUnits (splitDotSpace text) 0).map pyStrip) ∧
    (∃ t, specGreedyUnits (splitDotSpace text) 0 ++ t =
      splitDotSpace text) ∧
    sumLen (specGreedyUnits (splitDotSpace text) 0) < 500 ∧
    Q.length ≤ (specGreedyUnits (splitDotSpace text) 0).length := by
  refine ⟨?_, specGreedyUnits_append _ 0, ?_, ?_⟩
  · unfold SummarizationService.simpleBody
    rw [greedyLoop_eq_map_strip]
  · have := specGreedyUnits_sum (splitDotSpace text) 0 (by omega)
    omega
  · exact specGreedyUnits_maximal _ 0 Q hQ (by omega)

/-- Witness for C9 at the text `"a.  b"` and the trivial initial segment. -/
theorem C9_greedy_body_witness :
    (∃ t, ([] : List Str) ++ t = splitDotSpace (("a.  b").toList)) ∧
    sumLen ([] : List Str) < 500 ∧
    (SummarizationService.simpleBody (("a.  b").toList) =
      joinSep ['.', ' ']
        ((specGreedyUnits (splitDotSpace (("a.  b").toList)) 0).map
          pyStrip) ∧
     (∃ t, specGreedyUnits (splitDotSpace (("a.  b").toList)) 0 ++ t =
       splitDotSpace (("a.  b").toList)) ∧
     sumLen (specGreedyUnits (splitDotSpace (("a.  b").toList)) 0) < 500 ∧
     ([] : List Str).length ≤
       (specGreedyUnits (splitDotSpace (("a.  b").toList)) 0).length) :=
  ⟨⟨splitDotSpace (("a.  b").toList), rfl⟩, by decide,
    C9_greedy_body (("a.  b").toList) []
      ⟨splitDotSpace (("a.  b").toList), rfl⟩ (by decide)⟩

/-- Counterexample to C9 as stated: at `"a.  b"` the code's joined body is
`"a. b"` (the unit `" b"` is stripped before joining), which differs from
the claim's rejoined unmodified units `"a.  b"`. -/
theorem C9_greedy_body_counterexample :
    SummarizationService.simpleBody (("a.  b").toList) ≠
      claimBody (("a.  b").toList) := by decide

/-- Claim C8 is contradicted by the code: at a valid query whose core search
returns zero results, the handler's own 404 `HTTPException` is caught by its
blanket `except Exception` clause and re-raised as a 500 internal error that
merely embeds the 404 message, so the caller sees a generic internal-error
condition rather than a distinct not-found condition. -/
theorem C8_zero_results_wrapped_500 :
    App.search_endpoint (.ok []) (fun _ => []) (("abc").toList) =
      .error (.http 500
        (("Internal server error: 404: No relevant documents found").toList))
    := by
  rfl

